import Mathlib

/-!
Verification of the SABRE routing core (`sabre.pyx`).

The source file contains two revisions of the same Cython module, separated
by a marker: revision 1 (the first half) and revision 2 (the second half).
Definitions suffixed `_v1` embed revision 1; unsuffixed or `_v2` definitions
embed revision 2.  Doubles are embedded as `ℚ`; machine `unsigned int`
indices as `Nat`.  The external collaborators (`DAGCircuit` queries and the
`NLayout` class from `stochastic_swap.utils`) are embedded as read-only
structure fields, `NLayout` being modelled from the spec since its source is
not part of this repository snapshot.
-/

/-- A circuit qubit: a pair (register name, index), mirroring the `Qubit`
objects whose `.index` attribute feeds `qubit_map` and whose
`(register.name, index)` pair is revision 2's sort key.  Register names are
abstracted to their lexicographic rank: Python compares the name strings
lexicographically, and only their relative order reaches the routine. -/
abbrev Qubit := Nat × Nat

/-- The value `qubit_map[q]`, i.e. `q.index` (the dict
`{qubit: qubit.index for qubit in dag.qubits}`). -/
def qubitIndex (q : Qubit) : Nat := q.2

/-- An operation node of the circuit DAG (`DAGNode`): its `type` field and
its ordered list of qubit arguments `qargs`. -/
structure DNode where
  typ : String
  qargs : List Qubit
deriving DecidableEq, Inhabited

/-- Read-only view of the circuit DAG used by the router: `_multi_graph`
indexed by node id, the list `dag.qubits`, and the external `DAGCircuit`
queries `quantum_successors`, `quantum_predecessors` and `bfs_successors`
(the last one as successive layers of successor node ids). -/
structure DAG where
  nodes : List DNode
  qubits : List Qubit
  succs : Nat → List Nat
  preds : Nat → List Nat
  bfsSucc : Nat → List (List Nat)

/-- Node lookup `dag._multi_graph[node_id]`. -/
def DAG.node (d : DAG) (i : Nat) : DNode := d.nodes.getD i default

/-- Modelled from the spec: the `NLayout` class of `stochastic_swap.utils`
is not under src/; per spec sections 3 and 4.1 it is a pair of parallel
arrays `logic_to_phys` and `phys_to_logic`. -/
structure NLayout where
  logic_to_phys : List Nat
  phys_to_logic : List Nat
deriving DecidableEq

/-- The physical qubit currently holding logical qubit `l`, i.e.
`layout.logic_to_phys[l]`. -/
def NLayout.physOf (L : NLayout) (l : Nat) : Nat := L.logic_to_phys.getD l 0

/-- Modelled from the spec: `NLayout.swap(p, q)` "simultaneously exchanges
the two entries of `phys_to_logic` and updates the two affected entries of
`logic_to_phys`" (spec section 3).  `heuristic_search` invokes it directly
on the chosen candidate pair. -/
def NLayout.swap (L : NLayout) (p q : Nat) : NLayout :=
  let lp := L.phys_to_logic.getD p 0
  let lq := L.phys_to_logic.getD q 0
  { logic_to_phys := (L.logic_to_phys.set lp q).set lq p
    phys_to_logic := (L.phys_to_logic.set p lq).set q lp }

/-- `EXTENDED_SET_SIZE = 20`. -/
def EXTENDED_SET_SIZE : Nat := 20

/-- `EXTENDED_SET_WEIGHT = 0.5`. -/
def EXTENDED_SET_WEIGHT : ℚ := 1/2

/-- `DECAY_RATE = 0.001`. -/
def DECAY_RATE : ℚ := 1/1000

/-- `DECAY_RESET_INTERVAL = 5`. -/
def DECAY_RESET_INTERVAL : Nat := 5

/-- Revision 2 front-layer scan (the `for node_id in front_layer` loop of
`heuristic_search`): build `execute_gate_list`.  A node whose `qargs` has
length 2 is pushed iff `adj_matrix[phys(v1), phys(v0)] != 0` where
`v0, v1 = node.qargs`; any other node falls into the `else` branch and is
pushed unconditionally. -/
def execute_gate_scan (adj : Nat → Nat → ℚ) (L : NLayout) (dag : DAG)
    (front : List Nat) : List Nat :=
  front.filter fun node_id =>
    let node := dag.node node_id
    if node.qargs.length = 2 then
      decide (adj (L.physOf (qubitIndex (node.qargs.getD 1 default)))
                  (L.physOf (qubitIndex (node.qargs.getD 0 default))) ≠ 0)
    else
      true

/-- Loop body of the revision 1 front-layer scan, which additionally raises
a bare `Exception` whenever a two-qubit node has a qarg currently mapped to
physical qubit 10 (the `== 10` check precedes the adjacency test). -/
def ex_scan_v1_go (adj : Nat → Nat → ℚ) (L : NLayout) (dag : DAG) :
    List Nat → List Nat → Except Unit (List Nat)
  | [], acc => Except.ok acc
  | node_id :: rest, acc =>
    if (dag.node node_id).qargs.length = 2 then
      if L.physOf (qubitIndex ((dag.node node_id).qargs.getD 0 default)) = 10 ∨
          L.physOf (qubitIndex ((dag.node node_id).qargs.getD 1 default)) = 10 then
        Except.error ()
      else if adj (L.physOf (qubitIndex ((dag.node node_id).qargs.getD 1 default)))
          (L.physOf (qubitIndex ((dag.node node_id).qargs.getD 0 default))) ≠ 0 then
        ex_scan_v1_go adj L dag rest (acc ++ [node_id])
      else ex_scan_v1_go adj L dag rest acc
    else ex_scan_v1_go adj L dag rest (acc ++ [node_id])

/-- Revision 1 front-layer scan: `execute_gate_list` construction, or the
propagated exception. -/
def execute_gate_scan_v1 (adj : Nat → Nat → ℚ) (L : NLayout) (dag : DAG)
    (front : List Nat) : Except Unit (List Nat) :=
  ex_scan_v1_go adj L dag front []

/-- Heuristic 1 (`basic`) branch of `score_heuristic`: the left-to-right
accumulation `sum += cdist[q0, q1]` over the given gate list, where `q0, q1`
are the physical images of each gate's first two qargs under the trial
layout. -/
def score_h1 (cdist : Nat → Nat → ℚ) (front : List Nat) (L : NLayout)
    (dag : DAG) : ℚ :=
  front.foldl
    (fun s node =>
      let q := (dag.node node).qargs
      let q0 := L.physOf (qubitIndex (q.getD 0 default))
      let q1 := L.physOf (qubitIndex (q.getD 1 default))
      s + cdist q0 q1) 0

/-- Heuristic 2 (`lookahead`) branch: `H1(front)/|front|` plus
`EXTENDED_SET_WEIGHT` times `H1(extended)/|extended|`, the second term
forced to `0.0` when the extended set is empty. -/
def score_h2 (cdist : Nat → Nat → ℚ) (front ext : List Nat) (L : NLayout)
    (dag : DAG) : ℚ :=
  let first_cost := score_h1 cdist front L dag / (front.length : ℚ)
  let second_cost := score_h1 cdist ext L dag
  let second_cost := if ext.isEmpty then 0 else second_cost / (ext.length : ℚ)
  first_cost + EXTENDED_SET_WEIGHT * second_cost

/-- Heuristic 3 (`decay`) branch: the lookahead score scaled by the larger
decay factor of the two swapped qubits. -/
def score_h3 (cdist : Nat → Nat → ℚ) (front ext : List Nat) (L : NLayout)
    (decay : List ℚ) (a b : Nat) (dag : DAG) : ℚ :=
  max (decay.getD a 0) (decay.getD b 0) * score_h2 cdist front ext L dag

/-- `score_heuristic`: dispatch on the heuristic selector (1 basic,
2 lookahead, 3 decay; a `cdef double` function falling off the end yields
0). -/
def score_heuristic (h : Nat) (cdist : Nat → Nat → ℚ) (front ext : List Nat)
    (L : NLayout) (decay : List ℚ) (a b : Nat) (dag : DAG) : ℚ :=
  if h = 1 then score_h1 cdist front L dag
  else if h = 2 then score_h2 cdist front ext L dag
  else if h = 3 then score_h3 cdist front ext L decay a b dag
  else 0

/-- Revision 1 `obtain_swaps`: for each front-layer node, each of its qargs
`virtual`, and each physical `neighbor` of `phys_of(virtual)` with a nonzero
adjacency entry, emit `sorted([qubit_map[virtual], virtual_neighbor])` — an
integer sort of the two logical indices. -/
def obtain_swaps_v1 (numQubits : Nat) (adj : Nat → Nat → ℚ)
    (front : List Nat) (L : NLayout) (dag : DAG) : List (Nat × Nat) :=
  front.flatMap fun node =>
    (dag.node node).qargs.flatMap fun virtual =>
      let physical := L.physOf (qubitIndex virtual)
      (List.range numQubits).filterMap fun neighbor =>
        if adj physical neighbor = 0 then none
        else
          let virtual_neighbor := L.phys_to_logic.getD neighbor 0
          some (min (qubitIndex virtual) virtual_neighbor,
                max (qubitIndex virtual) virtual_neighbor)

/-- Python's comparison key `(q.register.name, q.index)` used by revision 2's
`sorted` call. -/
def qubitKeyLe (q r : Qubit) : Bool :=
  decide (q.1 < r.1 ∨ (q.1 = r.1 ∧ q.2 ≤ r.2))

/-- Revision 2 `obtain_swaps`: like revision 1 but the two qubit *objects*
are sorted by the composite key `(register.name, index)` and only then
mapped through `qubit_map`. -/
def obtain_swaps_v2 (numQubits : Nat) (adj : Nat → Nat → ℚ)
    (front : List Nat) (L : NLayout) (dag : DAG) : List (Nat × Nat) :=
  front.flatMap fun node =>
    (dag.node node).qargs.flatMap fun virtual =>
      let physical := L.physOf (qubitIndex virtual)
      (List.range numQubits).filterMap fun neighbor =>
        if adj physical neighbor = 0 then none
        else
          let virtual_neighbor := L.phys_to_logic.getD neighbor 0
          let virtual_neighbor_bit := dag.qubits.getD virtual_neighbor default
          let sw :=
            if qubitKeyLe virtual virtual_neighbor_bit then
              (virtual, virtual_neighbor_bit)
            else (virtual_neighbor_bit, virtual)
          some (qubitIndex sw.1, qubitIndex sw.2)

/-- `np.amin` over the score array (scores are built nonempty whenever it is
consulted; on an empty list we return 0). -/
def amin : List ℚ → ℚ
  | [] => 0
  | x :: xs => xs.foldl min x

/-- The `best_swaps` accumulation loop: append `swap_candidates[i]` whenever
`swap_scores[i] == min_score`. -/
def build_best_swaps (scores : List ℚ) (cands : List (Nat × Nat)) :
    List (Nat × Nat) :=
  let min_score := amin scores
  (cands.zip scores).foldl
    (fun acc p => if p.2 = min_score then acc ++ [p.1] else acc) []

/-- The ascending order on pairs used by `best_swaps.sort(key=lambda x:
(x[0], x[1]))`. -/
def pairLe (x y : Nat × Nat) : Prop :=
  x.1 < y.1 ∨ (x.1 = y.1 ∧ x.2 ≤ y.2)

instance : DecidableRel pairLe := fun x y => by
  unfold pairLe; infer_instance

instance : IsTotal (Nat × Nat) pairLe where
  total x y := by
    rcases Nat.lt_trichotomy x.1 y.1 with h | h | h
    · exact Or.inl (Or.inl h)
    · rcases Nat.le_total x.2 y.2 with h2 | h2
      · exact Or.inl (Or.inr ⟨h, h2⟩)
      · exact Or.inr (Or.inr ⟨h.symm, h2⟩)
    · exact Or.inr (Or.inl h)

instance : IsTrans (Nat × Nat) pairLe where
  trans x y z hxy hyz := by
    rcases hxy with h | ⟨e, h2⟩
    · rcases hyz with h' | ⟨e', _⟩
      · exact Or.inl (h.trans h')
      · exact Or.inl (e' ▸ h)
    · rcases hyz with h' | ⟨e', h2'⟩
      · exact Or.inl (e ▸ h')
      · exact Or.inr ⟨e.trans e', h2.trans h2'⟩

/-- `best_swaps.sort(...)`: sort the tied candidates ascending by
`(x[0], x[1])`. -/
def sort_best_swaps (l : List (Nat × Nat)) : List (Nat × Nat) :=
  List.insertionSort pairLe l

/-- The full selection step: `best_swap = rng.choice(best_swaps)` after the
accumulation and the sort; the injected RNG is modelled as its `choice`
primitive. -/
def select_best_swap (rng : List (Nat × Nat) → Nat × Nat)
    (scores : List ℚ) (cands : List (Nat × Nat)) : Nat × Nat :=
  rng (sort_best_swaps (build_best_swaps scores cands))

/-- `_reset_qubits_decay`: set `qubits_decay[i] = 1` for
`i in range(num_qubits)`. -/
def reset_qubits_decay (numQubits : Nat) (decay : List ℚ) : List ℚ :=
  (List.range numQubits).foldl (fun d i => d.set i 1) decay

/-- One `qubits_decay[x] += DECAY_RATE` update. -/
def bump_decay (decay : List ℚ) (x : Nat) : List ℚ :=
  decay.set x (decay.getD x 0 + DECAY_RATE)

/-- The post-swap bookkeeping of `heuristic_search`:
`num_search_steps += 1`, then either a full decay reset (counter a multiple
of `DECAY_RESET_INTERVAL`) or a `DECAY_RATE` bump of the two swapped
entries.  Returns the new counter and decay vector. -/
def swap_decay_step (steps : Nat) (a b : Nat) (decay : List ℚ)
    (numQubits : Nat) : Nat × List ℚ :=
  let steps' := steps + 1
  if steps' % DECAY_RESET_INTERVAL = 0 then
    (steps', reset_qubits_decay numQubits decay)
  else
    (steps', bump_decay (bump_decay decay a) b)

/-- State of one per-front-node BFS successor generator inside
`obtain_extended_set`: the remaining layers (each a list of successor node
ids, as produced by `dag.bfs_successors`) and the
`node_lookahead_exhausted` flag. -/
structure ExtGen where
  layers : List (List Nat)
  exhausted : Bool
deriving DecidableEq

/-- The filter applied to each BFS layer:
`x.type == 'op' and len(x.qargs) == 2`. -/
def ext_filter (dag : DAG) (layer : List Nat) : List Nat :=
  layer.filter fun x =>
    decide ((dag.node x).typ = "op" ∧ (dag.node x).qargs.length = 2)

/-- Revision 1 inner `while` loop: `push_back` successors onto the list
while its size is below `EXTENDED_SET_SIZE` (duplicates are kept). -/
def push_layer_v1 : List Nat → List Nat → List Nat
  | [], acc => acc
  | x :: xs, acc =>
    if acc.length < EXTENDED_SET_SIZE then push_layer_v1 xs (acc ++ [x])
    else acc

/-- Revision 2 inner `while` loop: `insert` successors into the set while
its size is below `EXTENDED_SET_SIZE` (an already-present id is a no-op). -/
def push_layer_v2 : List Nat → List Nat → List Nat
  | [], acc => acc
  | x :: xs, acc =>
    if acc.length < EXTENDED_SET_SIZE then
      push_layer_v2 xs (if x ∈ acc then acc else acc ++ [x])
    else acc

/-- Revision 1 round-robin loop of `obtain_extended_set`
(`for i, node_successor_generator in cycle(enumerate(...))`): break when
every generator is exhausted or the set is full; otherwise pull the next
BFS layer of generator `i` (marking it exhausted on `StopIteration`),
filter it, and push its members.  Fuel bounds the number of loop passes. -/
def ext_loop_v1 (dag : DAG) : Nat → List ExtGen → Nat → List Nat → List Nat
  | 0, _, _, acc => acc
  | fuel + 1, gens, i, acc =>
    if gens.all (·.exhausted) ∨ EXTENDED_SET_SIZE ≤ acc.length then acc
    else
      match (gens.getD i ⟨[], true⟩).layers with
      | [] =>
        ext_loop_v1 dag fuel (gens.set i ⟨[], true⟩)
          ((i + 1) % gens.length) acc
      | layer :: rest =>
        ext_loop_v1 dag fuel
          (gens.set i ⟨rest, (gens.getD i ⟨[], true⟩).exhausted⟩)
          ((i + 1) % gens.length)
          (push_layer_v1 (ext_filter dag layer) acc)

/-- Revision 2 round-robin loop: identical control flow, but members are
inserted without duplication. -/
def ext_loop_v2 (dag : DAG) : Nat → List ExtGen → Nat → List Nat → List Nat
  | 0, _, _, acc => acc
  | fuel + 1, gens, i, acc =>
    if gens.all (·.exhausted) ∨ EXTENDED_SET_SIZE ≤ acc.length then acc
    else
      match (gens.getD i ⟨[], true⟩).layers with
      | [] =>
        ext_loop_v2 dag fuel (gens.set i ⟨[], true⟩)
          ((i + 1) % gens.length) acc
      | layer :: rest =>
        ext_loop_v2 dag fuel
          (gens.set i ⟨rest, (gens.getD i ⟨[], true⟩).exhausted⟩)
          ((i + 1) % gens.length)
          (push_layer_v2 (ext_filter dag layer) acc)

/-- Fuel sufficient for the round-robin loop to reach one of its break
conditions.  Any full cycle of `gens.length` consecutive passes that
consumes no layer visits every generator, finds each without layers and
marks it exhausted, so the loop breaks within one further pass; hence the
loop ends within `(total layers + 2)` cycles plus one pass, counted
generously below (extra fuel is harmless: once a break condition holds the
loop returns the accumulator unchanged). -/
def ext_fuel (gens : List (List (List Nat))) : Nat :=
  ((gens.map List.length).sum + 2) * (gens.length + 1) + 1

/-- Revision 1 `obtain_extended_set`, taking the per-front-node BFS layer
sequences as input. -/
def obtain_extended_set_v1 (dag : DAG) (gens : List (List (List Nat))) :
    List Nat :=
  ext_loop_v1 dag (ext_fuel gens) (gens.map fun ls => ⟨ls, false⟩) 0 []

/-- Revision 2 `obtain_extended_set`, taking the per-front-node BFS layer
sequences as input. -/
def obtain_extended_set_v2 (dag : DAG) (gens : List (List (List Nat))) :
    List Nat :=
  ext_loop_v2 dag (ext_fuel gens) (gens.map fun ls => ⟨ls, false⟩) 0 []

/-- `is_resolved`: every `type == 'op'` quantum predecessor of `node` is in
`applied_gates`. -/
def is_resolved (applied : List Nat) (dag : DAG) (node : Nat) : Bool :=
  ((dag.preds node).filter (fun p => decide ((dag.node p).typ = "op"))).all
    (fun p => decide (p ∈ applied))

/-- The mutable router state threaded through `heuristic_search`'s loop:
front layer, current layout, `applied_gates`, `qubits_decay` and
`num_search_steps` (the emitted circuit is not tracked). -/
structure RouterState where
  front : List Nat
  layout : NLayout
  applied : List Nat
  decay : List ℚ
  steps : Nat
deriving DecidableEq

/-- The `if not execute_gate_list.empty()` branch: for each executable node
(in order) remove it from the front layer (`cpplist.remove` erases every
equal element), insert it into `applied_gates`, push each now-resolved
`type == 'op'` quantum successor onto the front layer, and reset the decay
vector when the node has at least one qarg. -/
def drain_gates (dag : DAG) (numQubits : Nat) (ex : List Nat)
    (s : RouterState) : RouterState :=
  ex.foldl
    (fun st node_id =>
      let node := dag.node node_id
      let front' := st.front.filter (fun x => decide (x ≠ node_id))
      let applied' := st.applied ++ [node_id]
      let front'' := (dag.succs node_id).foldl
        (fun f succ =>
          if (dag.node succ).typ ≠ "op" then f
          else if is_resolved applied' dag succ then f ++ [succ] else f)
        front'
      let decay' :=
        if node.qargs ≠ [] then reset_qubits_decay numQubits st.decay
        else st.decay
      { st with front := front'', applied := applied', decay := decay' })
    s

/-- One pass of revision 2's `while not front_layer.empty()` loop: either
drain the executable gates, or build the extended set and swap candidates,
score every candidate on a trial layout, select the best swap, apply it to
the layout, and update the step counter and decay vector.  Returns `none`
when the front layer is empty (loop exit). -/
def router_iter (dag : DAG) (numQubits : Nat) (adj cdist : Nat → Nat → ℚ)
    (heuristic : Nat) (rng : List (Nat × Nat) → Nat × Nat)
    (s : RouterState) : Option RouterState :=
  if s.front = [] then none
  else
    let ex := execute_gate_scan adj s.layout dag s.front
    if ex ≠ [] then some (drain_gates dag numQubits ex s)
    else
      let ext := obtain_extended_set_v2 dag (s.front.map dag.bfsSucc)
      let cands := obtain_swaps_v2 numQubits adj s.front s.layout dag
      let scores := cands.map fun c =>
        let trial := s.layout.swap c.1 c.2
        score_heuristic heuristic cdist s.front ext trial s.decay c.1 c.2 dag
      let best := select_best_swap rng scores cands
      let layout' := s.layout.swap best.1 best.2
      let sd := swap_decay_step s.steps best.1 best.2 s.decay numQubits
      some { s with layout := layout', steps := sd.1, decay := sd.2 }

/-- Iterate `router_iter` `n` times from a starting state (stopping at
loop exit). -/
def router_run (dag : DAG) (numQubits : Nat) (adj cdist : Nat → Nat → ℚ)
    (heuristic : Nat) (rng : List (Nat × Nat) → Nat × Nat) :
    Nat → RouterState → Option RouterState
  | 0, s => some s
  | n + 1, s =>
    match router_iter dag numQubits adj cdist heuristic rng s with
    | none => none
    | some s' => router_run dag numQubits adj cdist heuristic rng n s'

/-- The spec's `H1(L, F)` (section 4.7), written from the spec's words for
comparison against the implementation: the sum of `cdist` over the physical
images of each gate's two logical qargs. -/
def H1spec (cdist : Nat → Nat → ℚ) (L : NLayout) (dag : DAG)
    (gates : List Nat) : ℚ :=
  (gates.map fun g =>
    cdist (L.physOf (qubitIndex ((dag.node g).qargs.getD 0 default)))
          (L.physOf (qubitIndex ((dag.node g).qargs.getD 1 default)))).sum

/-- An injected RNG whose `choice` primitive returns the first element. -/
def rngFirst : List (Nat × Nat) → Nat × Nat := fun l => l.headD (0, 0)

/-- An all-zero adjacency matrix (no couplings). -/
def adjZero : Nat → Nat → ℚ := fun _ _ => 0

/-- The adjacency matrix of the two-qubit path 0–1. -/
def adjPath2 : Nat → Nat → ℚ := fun p q =>
  if (p = 0 ∧ q = 1) ∨ (p = 1 ∧ q = 0) then 1 else 0

/-- The identity layout on two qubits. -/
def layoutId2 : NLayout := ⟨[0, 1], [0, 1]⟩

/-- The identity layout on three qubits. -/
def layoutId3 : NLayout := ⟨[0, 1, 2], [0, 1, 2]⟩

/-- A DAG whose single operation node (id 0) has three qubit arguments. -/
def dag3q : DAG :=
  ⟨[⟨"op", [(0, 0), (0, 1), (0, 2)]⟩],
   [(0, 0), (0, 1), (0, 2)], fun _ => [], fun _ => [], fun _ => []⟩

/-- A DAG whose single operation node (id 0) is a two-qubit gate on one
register `q`. -/
def dag2q : DAG :=
  ⟨[⟨"op", [(0, 0), (0, 1)]⟩],
   [(0, 0), (0, 1)], fun _ => [], fun _ => [], fun _ => []⟩

/-- A DAG over two registers whose names sort against the index order:
`dag.qubits = [b[0], a[1]]` (name ranks 1 and 0), single two-qubit gate on both. -/
def dagTwoRegs : DAG :=
  ⟨[⟨"op", [(1, 0), (0, 1)]⟩],
   [(1, 0), (0, 1)], fun _ => [], fun _ => [], fun _ => []⟩

/-- A four-physical-qubit coupling graph with two disconnected components
0–1 and 2–3. -/
def adjDisc : Nat → Nat → ℚ := fun p q =>
  if (p = 0 ∧ q = 1) ∨ (p = 1 ∧ q = 0) ∨ (p = 2 ∧ q = 3) ∨ (p = 3 ∧ q = 2)
  then 1 else 0

/-- A caller-supplied distance matrix for `adjDisc` (cross-component
entries are a large finite stand-in for infinity). -/
def cdistDisc : Nat → Nat → ℚ := fun p q =>
  if p = q then 0
  else if (p = 0 ∧ q = 1) ∨ (p = 1 ∧ q = 0) ∨ (p = 2 ∧ q = 3) ∨ (p = 3 ∧ q = 2)
  then 1 else 1000

/-- A DAG whose single gate (id 0) acts on logical qubits 0 and 2 — the two
ends of the disconnected components under the identity layout. -/
def dagDisc : DAG :=
  ⟨[⟨"op", [(0, 0), (0, 2)]⟩],
   [(0, 0), (0, 1), (0, 2), (0, 3)],
   fun _ => [], fun _ => [], fun _ => []⟩

/-- Initial router state for the disconnected instance: identity layout,
unit decay, front layer holding the one gate. -/
def discState0 : RouterState :=
  ⟨[0], ⟨[0, 1, 2, 3], [0, 1, 2, 3]⟩, [], [1, 1, 1, 1], 0⟩

/-- The layout reached from the identity after the swap (0, 1). -/
def discLayout1 : NLayout := ⟨[1, 0, 2, 3], [1, 0, 2, 3]⟩

/-- The router run on the disconnected instance with the basic heuristic
and the first-choice RNG. -/
def disc_run (n : Nat) : Option RouterState :=
  router_run dagDisc 4 adjDisc cdistDisc 1 rngFirst n discState0

/-- Membership in the revision 2 execute-gate list: a node is picked up by
the scan iff it is in the front layer and either its arity differs from 2
or it is two-qubit with a nonzero adjacency entry between the physical
images of its qargs. -/
theorem mem_execute_gate_scan {adj : Nat → Nat → ℚ} {L : NLayout} {dag : DAG}
    {front : List Nat} {n : Nat} :
    n ∈ execute_gate_scan adj L dag front ↔
      n ∈ front ∧
        ((dag.node n).qargs.length ≠ 2 ∨
          ((dag.node n).qargs.length = 2 ∧
            adj (L.physOf (qubitIndex ((dag.node n).qargs.getD 1 default)))
                (L.physOf (qubitIndex ((dag.node n).qargs.getD 0 default))) ≠ 0)) := by
  unfold execute_gate_scan
  rw [List.mem_filter]
  refine and_congr_right fun _ => ?_
  by_cases h2 : (dag.node n).qargs.length = 2
  · simp [h2]
  · simp [h2]

/-- C1 (amended): in each router iteration, a front-layer node is marked
executable (placed in the execute-gate list) iff its qargs list does not
have length exactly 2 — the arity fall-through, which covers single-qubit
nodes but also arity 0 and arity ≥ 3 — or it is two-qubit and its two
logical qargs map under the current layout to physical qubits with a
nonzero adjacency-matrix entry. -/
theorem execute_scan_membership (adj : Nat → Nat → ℚ) (L : NLayout)
    (dag : DAG) (front : List Nat) (n : Nat) :
    n ∈ execute_gate_scan adj L dag front ↔
      n ∈ front ∧
        ((dag.node n).qargs.length ≠ 2 ∨
          ((dag.node n).qargs.length = 2 ∧
            adj (L.physOf (qubitIndex ((dag.node n).qargs.getD 1 default)))
                (L.physOf (qubitIndex ((dag.node n).qargs.getD 0 default))) ≠ 0)) :=
  mem_execute_gate_scan

/-- C1 counterexample: the three-qubit node 0 is placed in the execute-gate
list (and hence emitted on the drain) although it is neither single-qubit
nor a two-qubit gate on adjacent physical qubits — the adjacency matrix
here has no edges at all, so the claimed iff fails at this input. -/
theorem execute_scan_iff_false_at_three_qubit_node :
    0 ∈ execute_gate_scan adjZero layoutId3 dag3q [0] ∧
      ¬((dag3q.node 0).qargs.length = 1 ∨
        ((dag3q.node 0).qargs.length = 2 ∧
          adjZero (layoutId3.physOf (qubitIndex ((dag3q.node 0).qargs.getD 1 default)))
                  (layoutId3.physOf (qubitIndex ((dag3q.node 0).qargs.getD 0 default))) ≠ 0)) := by
  decide

/-- C7 (amended): a front-layer node whose arity differs from 2 (hence in
particular any node of arity greater than 2) is not rejected with an
InvalidArity error — no such error exists in the code — but is treated as
immediately executable and emitted. -/
theorem execute_scan_arity_fallthrough (adj : Nat → Nat → ℚ) (L : NLayout)
    (dag : DAG) (front : List Nat) (n : Nat)
    (hmem : n ∈ front) (hlen : (dag.node n).qargs.length ≠ 2) :
    n ∈ execute_gate_scan adj L dag front :=
  mem_execute_gate_scan.mpr ⟨hmem, Or.inl hlen⟩

/-- Witness for the amended C7 theorem at a concrete three-qubit node. -/
theorem execute_scan_arity_fallthrough_witness :
    (0 ∈ ([0] : List Nat) ∧ (dag3q.node 0).qargs.length ≠ 2) ∧
      0 ∈ execute_gate_scan adjPath2 layoutId3 dag3q [0] :=
  ⟨⟨by decide, by decide⟩,
    execute_scan_arity_fallthrough adjPath2 layoutId3 dag3q [0] 0
      (by decide) (by decide)⟩

/-- C7 counterexample: on a front layer holding an arity-3 node, revision 1
returns the node in its execute-gate list without error and revision 2 does
the same, contradicting the claimed fatal InvalidArity failure. -/
theorem no_invalid_arity_error :
    execute_gate_scan_v1 adjZero layoutId3 dag3q [0] = Except.ok [0] ∧
      execute_gate_scan adjZero layoutId3 dag3q [0] = [0] ∧
      (dag3q.node 0).qargs.length = 3 :=
  ⟨rfl, rfl, rfl⟩

/-- C9: whenever swap scoring runs — that is, the execute-gate list of the
iteration is empty — every node still in the front layer has exactly two
qubit arguments, so the scorer's `q[0]`/`q[1]` accesses never reach a
one-qubit node. -/
theorem front_all_two_qubit_when_scoring (adj : Nat → Nat → ℚ) (L : NLayout)
    (dag : DAG) (front : List Nat)
    (h : execute_gate_scan adj L dag front = []) :
    ∀ n ∈ front, (dag.node n).qargs.length = 2 := by
  intro n hn
  by_contra hlen
  have hmem : n ∈ execute_gate_scan adj L dag front :=
    mem_execute_gate_scan.mpr ⟨hn, Or.inl hlen⟩
  rw [h] at hmem
  exact (List.not_mem_nil n) hmem

/-- Witness for C9: a single non-adjacent two-qubit gate yields an empty
execute-gate list, and the theorem then reports every front node two-qubit. -/
theorem front_all_two_qubit_when_scoring_witness :
    execute_gate_scan adjZero layoutId2 dag2q [0] = [] ∧
      ∀ n ∈ ([0] : List Nat), (dag2q.node n).qargs.length = 2 :=
  ⟨by decide,
    front_all_two_qubit_when_scoring adjZero layoutId2 dag2q [0] (by decide)⟩

/-- The revision 1 scan loop errors iff some front node is two-qubit with a
qarg currently mapped to physical qubit 10, regardless of the accumulator. -/
theorem ex_scan_v1_go_error_iff (adj : Nat → Nat → ℚ) (L : NLayout)
    (dag : DAG) (front acc : List Nat) :
    ex_scan_v1_go adj L dag front acc = Except.error () ↔
      ∃ n ∈ front, (dag.node n).qargs.length = 2 ∧
        (L.physOf (qubitIndex ((dag.node n).qargs.getD 0 default)) = 10 ∨
         L.physOf (qubitIndex ((dag.node n).qargs.getD 1 default)) = 10) := by
  induction front generalizing acc with
  | nil =>
    constructor
    · intro h; exact absurd h (by simp [ex_scan_v1_go])
    · rintro ⟨n, hn, -⟩; exact absurd hn (List.not_mem_nil n)
  | cons x rest ih =>
    rw [ex_scan_v1_go]
    by_cases h2 : (dag.node x).qargs.length = 2
    · rw [if_pos h2]
      by_cases h10 : L.physOf (qubitIndex ((dag.node x).qargs.getD 0 default)) = 10 ∨
          L.physOf (qubitIndex ((dag.node x).qargs.getD 1 default)) = 10
      · rw [if_pos h10]
        exact ⟨fun _ => ⟨x, List.mem_cons_self x rest, h2, h10⟩, fun _ => rfl⟩
      · rw [if_neg h10]
        have step : ∀ acc2 : List Nat,
            ex_scan_v1_go adj L dag rest acc2 = Except.error () ↔
              ∃ n ∈ x :: rest, (dag.node n).qargs.length = 2 ∧
                (L.physOf (qubitIndex ((dag.node n).qargs.getD 0 default)) = 10 ∨
                 L.physOf (qubitIndex ((dag.node n).qargs.getD 1 default)) = 10) := by
          intro acc2
          rw [ih]
          constructor
          · rintro ⟨n, hn, hp⟩; exact ⟨n, List.mem_cons_of_mem x hn, hp⟩
          · rintro ⟨n, hn, hp⟩
            rcases List.mem_cons.mp hn with rfl | hn
            · exact absurd hp.2 h10
            · exact ⟨n, hn, hp⟩
        by_cases hadj :
            adj (L.physOf (qubitIndex ((dag.node x).qargs.getD 1 default)))
                (L.physOf (qubitIndex ((dag.node x).qargs.getD 0 default))) ≠ 0
        · rw [if_pos hadj]; exact step (acc ++ [x])
        · rw [if_neg hadj]; exact step acc
    · rw [if_neg h2, ih]
      constructor
      · rintro ⟨n, hn, hp⟩; exact ⟨n, List.mem_cons_of_mem x hn, hp⟩
      · rintro ⟨n, hn, hp⟩
        rcases List.mem_cons.mp hn with rfl | hn
        · exact absurd hp.1 h2
        · exact ⟨n, hn, hp⟩

/-- C10: the first revision of `heuristic_search` raises its bare
`Exception` — and hence builds no mapped circuit for the iteration — iff
some two-qubit front-layer node has a logical qarg currently mapped to
physical qubit index 10; the check precedes the adjacency test, so it fires
even for executable gates, and the scan completes normally exactly when no
front-layer two-qubit gate occupies physical qubit 10. -/
theorem scan_v1_raises_iff_phys10 (adj : Nat → Nat → ℚ) (L : NLayout)
    (dag : DAG) (front : List Nat) :
    execute_gate_scan_v1 adj L dag front = Except.error () ↔
      ∃ n ∈ front, (dag.node n).qargs.length = 2 ∧
        (L.physOf (qubitIndex ((dag.node n).qargs.getD 0 default)) = 10 ∨
         L.physOf (qubitIndex ((dag.node n).qargs.getD 1 default)) = 10) :=
  ex_scan_v1_go_error_iff adj L dag front []

/-- The implementation's basic heuristic equals the spec's `H1`. -/
theorem score_h1_eq_H1spec (cdist : Nat → Nat → ℚ) (front : List Nat)
    (L : NLayout) (dag : DAG) :
    score_h1 cdist front L dag = H1spec cdist L dag front := by
  rw [H1spec, List.sum_eq_foldl, List.foldl_map]
  rfl

/-- C2: the lookahead score (heuristic 2) equals
`H1(L,F)/|F| + 0.5 * H1(L,E)/|E|`, with the extended-set term exactly zero
whenever `E` is empty. -/
theorem lookahead_score_formula (cdist : Nat → Nat → ℚ) (front ext : List Nat)
    (L : NLayout) (decay : List ℚ) (a b : Nat) (dag : DAG) :
    score_heuristic 2 cdist front ext L decay a b dag =
      H1spec cdist L dag front / (front.length : ℚ) +
        (1/2) * (if ext = [] then 0
                 else H1spec cdist L dag ext / (ext.length : ℚ)) := by
  show score_h2 cdist front ext L dag = _
  unfold score_h2
  rw [score_h1_eq_H1spec, score_h1_eq_H1spec, EXTENDED_SET_WEIGHT]
  simp only [List.isEmpty_iff]

/-- `List.set` leaves the updated index readable when in bounds. -/
theorem getD_set_self (d : List ℚ) (i : Nat) (v : ℚ) (h : i < d.length) :
    (d.set i v).getD i 0 = v := by
  rw [List.getD_eq_getElem?_getD, List.getElem?_set_self h]
  rfl

/-- `List.set` leaves every other index unchanged. -/
theorem getD_set_ne (d : List ℚ) (i j : Nat) (v : ℚ) (h : i ≠ j) :
    (d.set i v).getD j 0 = d.getD j 0 := by
  rw [List.getD_eq_getElem?_getD, List.getElem?_set_ne h,
    ← List.getD_eq_getElem?_getD]

/-- The decay-reset fold preserves the vector's length. -/
theorem reset_fold_length (l : List Nat) (d : List ℚ) :
    (l.foldl (fun d i => d.set i 1) d).length = d.length := by
  induction l generalizing d with
  | nil => rfl
  | cons x xs ih => rw [List.foldl_cons, ih, List.length_set]

/-- `_reset_qubits_decay` preserves the vector's length. -/
theorem reset_qubits_decay_length (n : Nat) (d : List ℚ) :
    (reset_qubits_decay n d).length = d.length :=
  reset_fold_length (List.range n) d

/-- `_reset_qubits_decay` sets every entry below `num_qubits` to one. -/
theorem reset_qubits_decay_getD (n : Nat) (d : List ℚ) (i : Nat)
    (hi : i < n) (hd : i < d.length) :
    (reset_qubits_decay n d).getD i 0 = 1 := by
  induction n with
  | zero => exact absurd hi (Nat.not_lt_zero i)
  | succ n ih =>
    unfold reset_qubits_decay at ih ⊢
    rw [List.range_succ, List.foldl_append, List.foldl_cons, List.foldl_nil]
    rcases Nat.lt_or_ge i n with hin | hin
    · rw [getD_set_ne _ _ _ _ (Nat.ne_of_gt hin)]
      exact ih hin
    · have hi_eq : i = n := Nat.le_antisymm (Nat.lt_succ_iff.mp hi) hin
      subst hi_eq
      exact getD_set_self _ _ _ (by rw [reset_fold_length]; exact hd)

/-- C6: after a swap the step counter is incremented; if the new counter is
a (necessarily nonzero) multiple of `DECAY_RESET_INTERVAL = 5` every decay
entry below `num_qubits` is set to 1, and otherwise exactly the two entries
of the chosen pair `(a, b)` grow by `DECAY_RATE = 0.001` while every other
entry is unchanged. -/
theorem decay_update_spec (steps a b : Nat) (decay : List ℚ)
    (numQubits : Nat) (hlen : decay.length = numQubits)
    (ha : a < numQubits) (hb : b < numQubits) (hab : a ≠ b) :
    (swap_decay_step steps a b decay numQubits).1 = steps + 1 ∧
      ((steps + 1) % DECAY_RESET_INTERVAL = 0 →
        (steps + 1 ≠ 0 ∧ DECAY_RESET_INTERVAL ∣ (steps + 1)) ∧
        (swap_decay_step steps a b decay numQubits).2.length = numQubits ∧
        ∀ i < numQubits,
          (swap_decay_step steps a b decay numQubits).2.getD i 0 = 1) ∧
      ((steps + 1) % DECAY_RESET_INTERVAL ≠ 0 →
        (swap_decay_step steps a b decay numQubits).2.length = numQubits ∧
        (swap_decay_step steps a b decay numQubits).2.getD a 0 =
          decay.getD a 0 + DECAY_RATE ∧
        (swap_decay_step steps a b decay numQubits).2.getD b 0 =
          decay.getD b 0 + DECAY_RATE ∧
        ∀ i, i ≠ a → i ≠ b →
          (swap_decay_step steps a b decay numQubits).2.getD i 0 =
            decay.getD i 0) := by
  unfold swap_decay_step
  by_cases hm : (steps + 1) % DECAY_RESET_INTERVAL = 0
  · rw [if_pos hm]
    refine ⟨rfl, fun _ => ⟨⟨Nat.succ_ne_zero steps, Nat.dvd_of_mod_eq_zero hm⟩,
      by rw [reset_qubits_decay_length, hlen], fun i hi =>
        reset_qubits_decay_getD numQubits decay i hi (hlen ▸ hi)⟩,
      fun hc => absurd hm hc⟩
  · rw [if_neg hm]
    have hlb : (bump_decay decay a).length = decay.length := by
      rw [bump_decay, List.length_set]
    refine ⟨rfl, fun hc => absurd hc hm, fun _ => ?_⟩
    refine ⟨?_, ?_, ?_, ?_⟩
    · rw [bump_decay, List.length_set, hlb, hlen]
    · rw [bump_decay, getD_set_ne _ _ _ _ (Ne.symm hab), bump_decay,
        getD_set_self _ _ _ (hlen ▸ ha)]
    · rw [bump_decay, getD_set_self _ _ _ (by rw [hlb]; exact hlen ▸ hb),
        bump_decay, getD_set_ne _ _ _ _ hab]
    · intro i hia hib
      rw [bump_decay, getD_set_ne _ _ _ _ (Ne.symm hib), bump_decay,
        getD_set_ne _ _ _ _ (Ne.symm hia)]

/-- Witness for C6 at concrete inputs (steps 0, pair (0, 1), two qubits). -/
theorem decay_update_spec_witness :
    (([1, 1] : List ℚ).length = 2 ∧ 0 < 2 ∧ 1 < 2 ∧ (0 : Nat) ≠ 1) ∧
      ((swap_decay_step 0 0 1 [1, 1] 2).1 = 0 + 1 ∧
        ((0 + 1) % DECAY_RESET_INTERVAL = 0 →
          (0 + 1 ≠ 0 ∧ DECAY_RESET_INTERVAL ∣ (0 + 1)) ∧
          (swap_decay_step 0 0 1 [1, 1] 2).2.length = 2 ∧
          ∀ i < 2, (swap_decay_step 0 0 1 [1, 1] 2).2.getD i 0 = 1) ∧
        ((0 + 1) % DECAY_RESET_INTERVAL ≠ 0 →
          (swap_decay_step 0 0 1 [1, 1] 2).2.length = 2 ∧
          (swap_decay_step 0 0 1 [1, 1] 2).2.getD 0 0 =
            ([1, 1] : List ℚ).getD 0 0 + DECAY_RATE ∧
          (swap_decay_step 0 0 1 [1, 1] 2).2.getD 1 0 =
            ([1, 1] : List ℚ).getD 1 0 + DECAY_RATE ∧
          ∀ i, i ≠ 0 → i ≠ 1 →
            (swap_decay_step 0 0 1 [1, 1] 2).2.getD i 0 =
              ([1, 1] : List ℚ).getD i 0)) :=
  ⟨⟨rfl, by decide, by decide, by decide⟩,
    decay_update_spec 0 0 1 [1, 1] 2 rfl (by decide) (by decide) (by decide)⟩

/-- A left fold of `min` lands on the seed or a list element and bounds
them all from below. -/
theorem foldl_min_spec (x : ℚ) (xs : List ℚ) :
    (xs.foldl min x = x ∨ xs.foldl min x ∈ xs) ∧
      xs.foldl min x ≤ x ∧ ∀ s ∈ xs, xs.foldl min x ≤ s := by
  induction xs generalizing x with
  | nil =>
    exact ⟨Or.inl rfl, le_refl x, fun s hs => absurd hs (List.not_mem_nil s)⟩
  | cons y ys ih =>
    rw [List.foldl_cons]
    obtain ⟨hmem, hlex, hall⟩ := ih (min x y)
    refine ⟨?_, ?_, ?_⟩
    · rcases hmem with h | h
      · rcases min_choice x y with hc | hc
        · exact Or.inl (h.trans hc)
        · exact Or.inr (by rw [h, hc]; exact List.mem_cons_self y ys)
      · exact Or.inr (List.mem_cons_of_mem y h)
    · exact hlex.trans (min_le_left x y)
    · intro s hs
      rcases List.mem_cons.mp hs with h | hs
      · rw [h]
        exact hlex.trans (min_le_right x y)
      · exact hall s hs

/-- `np.amin` of a nonempty score array is a member and a lower bound. -/
theorem amin_spec (x : ℚ) (xs : List ℚ) :
    amin (x :: xs) ∈ x :: xs ∧ ∀ s ∈ x :: xs, amin (x :: xs) ≤ s := by
  have h := foldl_min_spec x xs
  constructor
  · rcases h.1 with h' | h'
    · rw [amin, h']
      exact List.mem_cons_self x xs
    · rw [amin]
      exact List.mem_cons_of_mem x h'
  · intro s hs
    rcases List.mem_cons.mp hs with rfl | hs
    · rw [amin]
      exact h.2.1
    · rw [amin]
      exact h.2.2 s hs

/-- Membership in the `best_swaps` accumulation fold. -/
theorem mem_filter_fold (m : ℚ) (l : List ((Nat × Nat) × ℚ))
    (acc : List (Nat × Nat)) (c : Nat × Nat) :
    c ∈ l.foldl (fun acc p => if p.2 = m then acc ++ [p.1] else acc) acc ↔
      c ∈ acc ∨ ∃ p ∈ l, p.2 = m ∧ p.1 = c := by
  induction l generalizing acc with
  | nil => simp
  | cons q qs ih =>
    rw [List.foldl_cons]
    by_cases hq : q.2 = m
    · rw [if_pos hq, ih]
      constructor
      · rintro (h | ⟨p, hp, h2, h1⟩)
        · rcases List.mem_append.mp h with h' | h'
          · exact Or.inl h'
          · exact Or.inr ⟨q, List.mem_cons_self q qs, hq,
              (List.mem_singleton.mp h').symm⟩
        · exact Or.inr ⟨p, List.mem_cons_of_mem q hp, h2, h1⟩
      · rintro (h | ⟨p, hp, h2, h1⟩)
        · exact Or.inl (List.mem_append.mpr (Or.inl h))
        · rcases List.mem_cons.mp hp with rfl | hp'
          · exact Or.inl (List.mem_append.mpr
              (Or.inr (List.mem_singleton.mpr h1.symm)))
          · exact Or.inr ⟨p, hp', h2, h1⟩
    · rw [if_neg hq, ih]
      constructor
      · rintro (h | ⟨p, hp, h2, h1⟩)
        · exact Or.inl h
        · exact Or.inr ⟨p, List.mem_cons_of_mem q hp, h2, h1⟩
      · rintro (h | ⟨p, hp, h2, h1⟩)
        · exact Or.inl h
        · rcases List.mem_cons.mp hp with rfl | hp
          · exact absurd h2 hq
          · exact Or.inr ⟨p, hp, h2, h1⟩

/-- A pair is in `best_swaps` iff it occurs (at the same position) with the
minimum score among the zipped candidates and scores. -/
theorem mem_build_best_swaps (scores : List ℚ) (cands : List (Nat × Nat))
    (c : Nat × Nat) :
    c ∈ build_best_swaps scores cands ↔ (c, amin scores) ∈ cands.zip scores := by
  show c ∈ (cands.zip scores).foldl
    (fun acc p => if p.2 = amin scores then acc ++ [p.1] else acc) [] ↔ _
  rw [mem_filter_fold]
  simp only [List.not_mem_nil, false_or]
  constructor
  · rintro ⟨p, hp, h2, h1⟩
    have hpc : p = (c, amin scores) := Prod.ext h1 h2
    rwa [hpc] at hp
  · intro h
    exact ⟨(c, amin scores), h, rfl, rfl⟩

/-- C3: the chosen swap is produced by a single application of the injected
RNG's `choice` to the sorted tied list; the minimum is a true minimum of
the score list, exact equality with it characterizes the tied list (as
position-wise pairs of the zipped candidates and scores), and the tied
list is sorted ascending by `(a, b)`.  The selection is thus a function of
the RNG, scores and candidates. -/
theorem select_best_swap_spec (rng : List (Nat × Nat) → Nat × Nat)
    (scores : List ℚ) (cands : List (Nat × Nat)) (hne : scores ≠ []) :
    (amin scores ∈ scores ∧ ∀ s ∈ scores, amin scores ≤ s) ∧
      (∀ c, c ∈ sort_best_swaps (build_best_swaps scores cands) ↔
        (c, amin scores) ∈ cands.zip scores) ∧
      List.Sorted pairLe (sort_best_swaps (build_best_swaps scores cands)) ∧
      select_best_swap rng scores cands =
        rng (sort_best_swaps (build_best_swaps scores cands)) := by
  cases scores with
  | nil => exact absurd rfl hne
  | cons x xs =>
    refine ⟨amin_spec x xs, ?_, ?_, rfl⟩
    · intro c
      rw [sort_best_swaps, (List.perm_insertionSort pairLe _).mem_iff,
        mem_build_best_swaps]
    · exact List.sorted_insertionSort pairLe _

/-- Witness for C3 at concrete scores and candidates. -/
theorem select_best_swap_spec_witness :
    (([2, 1, 1] : List ℚ) ≠ []) ∧
      ((amin [2, 1, 1] ∈ ([2, 1, 1] : List ℚ) ∧
          ∀ s ∈ ([2, 1, 1] : List ℚ), amin [2, 1, 1] ≤ s) ∧
        (∀ c, c ∈ sort_best_swaps
            (build_best_swaps [2, 1, 1] [(5, 6), (1, 2), (0, 3)]) ↔
          (c, amin [2, 1, 1]) ∈
            ([(5, 6), (1, 2), (0, 3)] : List (Nat × Nat)).zip [2, 1, 1]) ∧
        List.Sorted pairLe (sort_best_swaps
          (build_best_swaps [2, 1, 1] [(5, 6), (1, 2), (0, 3)])) ∧
        select_best_swap rngFirst [2, 1, 1] [(5, 6), (1, 2), (0, 3)] =
          rngFirst (sort_best_swaps
            (build_best_swaps [2, 1, 1] [(5, 6), (1, 2), (0, 3)]))) :=
  ⟨by decide,
    select_best_swap_spec rngFirst [2, 1, 1] [(5, 6), (1, 2), (0, 3)]
      (by decide)⟩

/-- C4 (amended): every candidate of revision 1's `obtain_swaps` — which
sorts the two logical integer indices — is a pair `(a, b)` with `a < b`,
provided the adjacency diagonal is zero on the physical range and the
layout satisfies `logic_to_phys[phys_to_logic[p]] = p` there.  (Revision 2
instead sorts the qubit objects by `(register.name, index)` and can emit a
descending pair when the name order disagrees with the index order.) -/
theorem obtain_swaps_v1_normalized (numQubits : Nat) (adj : Nat → Nat → ℚ)
    (front : List Nat) (L : NLayout) (dag : DAG)
    (hadj : ∀ p < numQubits, adj p p = 0)
    (hinv : ∀ p < numQubits,
      L.logic_to_phys.getD (L.phys_to_logic.getD p 0) 0 = p) :
    ∀ c ∈ obtain_swaps_v1 numQubits adj front L dag, c.1 < c.2 := by
  intro c hc
  unfold obtain_swaps_v1 at hc
  rw [List.mem_flatMap] at hc
  obtain ⟨node, -, hc⟩ := hc
  rw [List.mem_flatMap] at hc
  obtain ⟨virtual, -, hc⟩ := hc
  rw [List.mem_filterMap] at hc
  obtain ⟨neighbor, hn, hc⟩ := hc
  rw [List.mem_range] at hn
  by_cases hz : adj (L.physOf (qubitIndex virtual)) neighbor = 0
  · rw [if_pos hz] at hc
    exact absurd hc (by simp)
  · rw [if_neg hz] at hc
    have hceq := Option.some.inj hc
    have hne : qubitIndex virtual ≠ L.phys_to_logic.getD neighbor 0 := by
      intro he
      apply hz
      have hpn : L.physOf (qubitIndex virtual) = neighbor := by
        rw [NLayout.physOf, he]
        exact hinv neighbor hn
      rw [hpn]
      exact hadj neighbor hn
    rw [← hceq]
    exact min_lt_max.mpr hne

/-- Witness for the amended C4 theorem on the two-qubit path. -/
theorem obtain_swaps_v1_normalized_witness :
    ((∀ p < 2, adjPath2 p p = 0) ∧
      (∀ p < 2,
        layoutId2.logic_to_phys.getD (layoutId2.phys_to_logic.getD p 0) 0 = p)) ∧
      ∀ c ∈ obtain_swaps_v1 2 adjPath2 [0] layoutId2 dag2q, c.1 < c.2 :=
  ⟨⟨by decide, by decide⟩,
    obtain_swaps_v1_normalized 2 adjPath2 [0] layoutId2 dag2q
      (by decide) (by decide)⟩

/-- C4 counterexample: revision 2 sorts the two qubit objects by the
composite key `(register.name, index)`; with register-name order opposite
to index order it emits the candidate `(1, 0)`, which is not an ascending
pair. -/
theorem obtain_swaps_v2_not_normalized :
    (1, 0) ∈ obtain_swaps_v2 2 adjPath2 [0] layoutId2 dagTwoRegs ∧
      ¬(1 < 0) := by
  decide

/-- Revision 1's inner push loop never grows the list beyond the capacity. -/
theorem push_layer_v1_length (l acc : List Nat)
    (h : acc.length ≤ EXTENDED_SET_SIZE) :
    (push_layer_v1 l acc).length ≤ EXTENDED_SET_SIZE := by
  induction l generalizing acc with
  | nil => exact h
  | cons x xs ih =>
    rw [push_layer_v1]
    by_cases hlt : acc.length < EXTENDED_SET_SIZE
    · rw [if_pos hlt]
      exact ih _ (by simp only [List.length_append, List.length_singleton]; omega)
    · rw [if_neg hlt]
      exact h

/-- Revision 2's inner insert loop never grows the set beyond the capacity. -/
theorem push_layer_v2_length (l acc : List Nat)
    (h : acc.length ≤ EXTENDED_SET_SIZE) :
    (push_layer_v2 l acc).length ≤ EXTENDED_SET_SIZE := by
  induction l generalizing acc with
  | nil => exact h
  | cons x xs ih =>
    rw [push_layer_v2]
    by_cases hlt : acc.length < EXTENDED_SET_SIZE
    · rw [if_pos hlt]
      refine ih _ ?_
      by_cases hx : x ∈ acc
      · rw [if_pos hx]; omega
      · rw [if_neg hx, List.length_append, List.length_singleton]; omega
    · rw [if_neg hlt]
      exact h

/-- Elements produced by revision 1's push loop come from the accumulator
or the pushed layer. -/
theorem mem_push_layer_v1 (l acc : List Nat) (x : Nat)
    (h : x ∈ push_layer_v1 l acc) : x ∈ acc ∨ x ∈ l := by
  induction l generalizing acc with
  | nil => exact Or.inl h
  | cons y ys ih =>
    rw [push_layer_v1] at h
    by_cases hlt : acc.length < EXTENDED_SET_SIZE
    · rw [if_pos hlt] at h
      rcases ih _ h with h' | h'
      · rcases List.mem_append.mp h' with h'' | h''
        · exact Or.inl h''
        · exact Or.inr (by rw [List.mem_singleton.mp h'']; exact List.mem_cons_self y ys)
      · exact Or.inr (List.mem_cons_of_mem y h')
    · rw [if_neg hlt] at h
      exact Or.inl h

/-- Elements produced by revision 2's insert loop come from the accumulator
or the pushed layer. -/
theorem mem_push_layer_v2 (l acc : List Nat) (x : Nat)
    (h : x ∈ push_layer_v2 l acc) : x ∈ acc ∨ x ∈ l := by
  induction l generalizing acc with
  | nil => exact Or.inl h
  | cons y ys ih =>
    rw [push_layer_v2] at h
    by_cases hlt : acc.length < EXTENDED_SET_SIZE
    · rw [if_pos hlt] at h
      rcases ih _ h with h' | h'
      · by_cases hy : y ∈ acc
        · rw [if_pos hy] at h'
          exact Or.inl h'
        · rw [if_neg hy] at h'
          rcases List.mem_append.mp h' with h'' | h''
          · exact Or.inl h''
          · exact Or.inr (by rw [List.mem_singleton.mp h'']; exact List.mem_cons_self y ys)
      · exact Or.inr (List.mem_cons_of_mem y h')
    · rw [if_neg hlt] at h
      exact Or.inl h

/-- Revision 2's insert loop preserves distinctness. -/
theorem push_layer_v2_nodup (l acc : List Nat) (h : acc.Nodup) :
    (push_layer_v2 l acc).Nodup := by
  induction l generalizing acc with
  | nil => exact h
  | cons y ys ih =>
    rw [push_layer_v2]
    by_cases hlt : acc.length < EXTENDED_SET_SIZE
    · rw [if_pos hlt]
      refine ih _ ?_
      by_cases hy : y ∈ acc
      · rw [if_pos hy]; exact h
      · rw [if_neg hy, List.nodup_append]
        exact ⟨h, List.nodup_singleton y,
          fun a ha hb => hy (by rwa [List.mem_singleton.mp hb] at ha)⟩
    · rw [if_neg hlt]
      exact h

/-- The revision 1 round-robin loop respects the capacity bound. -/
theorem ext_loop_v1_length (dag : DAG) (fuel : Nat) :
    ∀ gens i acc, acc.length ≤ EXTENDED_SET_SIZE →
      (ext_loop_v1 dag fuel gens i acc).length ≤ EXTENDED_SET_SIZE := by
  induction fuel with
  | zero => intro gens i acc h; exact h
  | succ fuel ih =>
    intro gens i acc h
    rw [ext_loop_v1]
    by_cases hbr : gens.all (·.exhausted) ∨ EXTENDED_SET_SIZE ≤ acc.length
    · rw [if_pos hbr]; exact h
    · rw [if_neg hbr]
      cases hL : (gens.getD i ⟨[], true⟩).layers with
      | nil => exact ih _ _ _ h
      | cons layer rest => exact ih _ _ _ (push_layer_v1_length _ _ h)

/-- The revision 2 round-robin loop respects the capacity bound. -/
theorem ext_loop_v2_length (dag : DAG) (fuel : Nat) :
    ∀ gens i acc, acc.length ≤ EXTENDED_SET_SIZE →
      (ext_loop_v2 dag fuel gens i acc).length ≤ EXTENDED_SET_SIZE := by
  induction fuel with
  | zero => intro gens i acc h; exact h
  | succ fuel ih =>
    intro gens i acc h
    rw [ext_loop_v2]
    by_cases hbr : gens.all (·.exhausted) ∨ EXTENDED_SET_SIZE ≤ acc.length
    · rw [if_pos hbr]; exact h
    · rw [if_neg hbr]
      cases hL : (gens.getD i ⟨[], true⟩).layers with
      | nil => exact ih _ _ _ h
      | cons layer rest => exact ih _ _ _ (push_layer_v2_length _ _ h)

/-- The revision 2 round-robin loop preserves distinctness of the set. -/
theorem ext_loop_v2_nodup (dag : DAG) (fuel : Nat) :
    ∀ gens i acc, acc.Nodup → (ext_loop_v2 dag fuel gens i acc).Nodup := by
  induction fuel with
  | zero => intro gens i acc h; exact h
  | succ fuel ih =>
    intro gens i acc h
    rw [ext_loop_v2]
    by_cases hbr : gens.all (·.exhausted) ∨ EXTENDED_SET_SIZE ≤ acc.length
    · rw [if_pos hbr]; exact h
    · rw [if_neg hbr]
      cases hL : (gens.getD i ⟨[], true⟩).layers with
      | nil => exact ih _ _ _ h
      | cons layer rest => exact ih _ _ _ (push_layer_v2_nodup _ _ h)

/-- Any member of the revision 1 loop's result was already accumulated or
belongs to the filtered form of some remaining layer of some generator. -/
theorem ext_loop_v1_mem (dag : DAG) (fuel : Nat) :
    ∀ gens i acc x, x ∈ ext_loop_v1 dag fuel gens i acc →
      x ∈ acc ∨ ∃ g ∈ gens, ∃ layer ∈ g.layers, x ∈ ext_filter dag layer := by
  induction fuel with
  | zero => intro gens i acc x h; exact Or.inl h
  | succ fuel ih =>
    intro gens i acc x h
    rw [ext_loop_v1] at h
    by_cases hbr : gens.all (·.exhausted) ∨ EXTENDED_SET_SIZE ≤ acc.length
    · rw [if_pos hbr] at h; exact Or.inl h
    · rw [if_neg hbr] at h
      cases hL : (gens.getD i ⟨[], true⟩).layers with
      | nil =>
        rw [hL] at h
        rcases ih _ _ _ _ h with h' | ⟨g, hg, layer', hl', hx⟩
        · exact Or.inl h'
        · rcases List.mem_or_eq_of_mem_set hg with hg' | rfl
          · exact Or.inr ⟨g, hg', layer', hl', hx⟩
          · exact absurd hl' (List.not_mem_nil layer')
      | cons layer rest =>
        rw [hL] at h
        have hi : i < gens.length := by
          by_contra hge
          rw [List.getD_eq_default _ _ (Nat.le_of_not_lt hge)] at hL
          exact List.cons_ne_nil layer rest hL.symm
        have hgetd : gens.getD i ⟨[], true⟩ = gens[i] :=
          List.getD_eq_getElem gens _ hi
        have hgmem : gens[i] ∈ gens := List.getElem_mem hi
        have hlmem : layer ∈ gens[i].layers := by
          rw [← hgetd, hL]
          exact List.mem_cons_self layer rest
        rcases ih _ _ _ _ h with h' | ⟨g, hg, layer', hl', hx⟩
        · rcases mem_push_layer_v1 _ _ _ h' with h'' | h''
          · exact Or.inl h''
          · exact Or.inr ⟨gens[i], hgmem, layer, hlmem, h''⟩
        · rcases List.mem_or_eq_of_mem_set hg with hg' | rfl
          · exact Or.inr ⟨g, hg', layer', hl', hx⟩
          · refine Or.inr ⟨gens[i], hgmem, layer', ?_, hx⟩
            rw [← hgetd, hL]
            exact List.mem_cons_of_mem layer hl'
      
/-- Any member of the revision 2 loop's result was already accumulated or
belongs to the filtered form of some remaining layer of some generator. -/
theorem ext_loop_v2_mem (dag : DAG) (fuel : Nat) :
    ∀ gens i acc x, x ∈ ext_loop_v2 dag fuel gens i acc →
      x ∈ acc ∨ ∃ g ∈ gens, ∃ layer ∈ g.layers, x ∈ ext_filter dag layer := by
  induction fuel with
  | zero => intro gens i acc x h; exact Or.inl h
  | succ fuel ih =>
    intro gens i acc x h
    rw [ext_loop_v2] at h
    by_cases hbr : gens.all (·.exhausted) ∨ EXTENDED_SET_SIZE ≤ acc.length
    · rw [if_pos hbr] at h; exact Or.inl h
    · rw [if_neg hbr] at h
      cases hL : (gens.getD i ⟨[], true⟩).layers with
      | nil =>
        rw [hL] at h
        rcases ih _ _ _ _ h with h' | ⟨g, hg, layer', hl', hx⟩
        · exact Or.inl h'
        · rcases List.mem_or_eq_of_mem_set hg with hg' | rfl
          · exact Or.inr ⟨g, hg', layer', hl', hx⟩
          · exact absurd hl' (List.not_mem_nil layer')
      | cons layer rest =>
        rw [hL] at h
        have hi : i < gens.length := by
          by_contra hge
          rw [List.getD_eq_default _ _ (Nat.le_of_not_lt hge)] at hL
          exact List.cons_ne_nil layer rest hL.symm
        have hgetd : gens.getD i ⟨[], true⟩ = gens[i] :=
          List.getD_eq_getElem gens _ hi
        have hgmem : gens[i] ∈ gens := List.getElem_mem hi
        have hlmem : layer ∈ gens[i].layers := by
          rw [← hgetd, hL]
          exact List.mem_cons_self layer rest
        rcases ih _ _ _ _ h with h' | ⟨g, hg, layer', hl', hx⟩
        · rcases mem_push_layer_v2 _ _ _ h' with h'' | h''
          · exact Or.inl h''
          · exact Or.inr ⟨gens[i], hgmem, layer, hlmem, h''⟩
        · rcases List.mem_or_eq_of_mem_set hg with hg' | rfl
          · exact Or.inr ⟨g, hg', layer', hl', hx⟩
          · refine Or.inr ⟨gens[i], hgmem, layer', ?_, hx⟩
            rw [← hgetd, hL]
            exact List.mem_cons_of_mem layer hl'

/-- C5 (amended): for any DAG and per-front-node BFS layer sequences, the
extended set built by revision 2 holds at most `EXTENDED_SET_SIZE = 20`
node ids, its members are pairwise distinct, and every member is a
two-qubit operation node drawn from some BFS layer of some front-layer
node; revision 1 guarantees the same size bound and provenance, but keeps
duplicates (its container is a list with `push_back`). -/
theorem obtain_extended_set_spec (dag : DAG) (gens : List (List (List Nat))) :
    ((obtain_extended_set_v2 dag gens).length ≤ EXTENDED_SET_SIZE ∧
      (obtain_extended_set_v2 dag gens).Nodup ∧
      ∀ x ∈ obtain_extended_set_v2 dag gens, ∃ ls ∈ gens, ∃ layer ∈ ls,
        x ∈ layer ∧ (dag.node x).typ = "op" ∧
          (dag.node x).qargs.length = 2) ∧
    ((obtain_extended_set_v1 dag gens).length ≤ EXTENDED_SET_SIZE ∧
      ∀ x ∈ obtain_extended_set_v1 dag gens, ∃ ls ∈ gens, ∃ layer ∈ ls,
        x ∈ layer ∧ (dag.node x).typ = "op" ∧
          (dag.node x).qargs.length = 2) := by
  have hpool : ∀ x : Nat,
      (∃ g ∈ gens.map fun ls => (⟨ls, false⟩ : ExtGen),
        ∃ layer ∈ g.layers, x ∈ ext_filter dag layer) →
      ∃ ls ∈ gens, ∃ layer ∈ ls, x ∈ layer ∧ (dag.node x).typ = "op" ∧
        (dag.node x).qargs.length = 2 := by
    rintro x ⟨g, hg, layer, hl, hx⟩
    obtain ⟨ls, hls, rfl⟩ := List.mem_map.mp hg
    rw [ext_filter, List.mem_filter] at hx
    exact ⟨ls, hls, layer, hl, hx.1, of_decide_eq_true hx.2⟩
  refine ⟨⟨?_, ?_, ?_⟩, ?_, ?_⟩
  · exact ext_loop_v2_length dag _ _ 0 [] (by simp [EXTENDED_SET_SIZE])
  · exact ext_loop_v2_nodup dag _ _ 0 [] List.nodup_nil
  · intro x hx
    rcases ext_loop_v2_mem dag _ _ 0 [] x hx with h | h
    · exact absurd h (List.not_mem_nil x)
    · exact hpool x h
  · exact ext_loop_v1_length dag _ _ 0 [] (by simp [EXTENDED_SET_SIZE])
  · intro x hx
    rcases ext_loop_v1_mem dag _ _ 0 [] x hx with h | h
    · exact absurd h (List.not_mem_nil x)
    · exact hpool x h

/-- C5 counterexample: with two front-layer nodes whose BFS successors both
contain the same two-qubit operation node, revision 1's extended set is
`[0, 0]` — its members are not pairwise distinct. -/
theorem extended_set_v1_duplicates :
    obtain_extended_set_v1 dag2q [[[0]], [[0]]] = [0, 0] ∧
      ¬ (obtain_extended_set_v1 dag2q [[[0]], [[0]]]).Nodup := by
  decide

/-- On the disconnected instance, one router iteration from the identity
layout swaps the tied-and-sorted best candidate (0, 1): the front layer is
unchanged, the layout flips to `discLayout1`, and only the decay vector and
step counter advance. -/
theorem disc_iter_from_id (ap : List Nat) (dc : List ℚ) (st : Nat) :
    router_iter dagDisc 4 adjDisc cdistDisc 1 rngFirst
      ⟨[0], ⟨[0, 1, 2, 3], [0, 1, 2, 3]⟩, ap, dc, st⟩ =
      some ⟨[0], discLayout1, ap, (swap_decay_step st 0 1 dc 4).2,
        (swap_decay_step st 0 1 dc 4).1⟩ := by
  have hsc1 : score_heuristic 1 cdistDisc [0]
      (obtain_extended_set_v2 dagDisc [dagDisc.bfsSucc 0])
      ((⟨[0, 1, 2, 3], [0, 1, 2, 3]⟩ : NLayout).swap 0 1) dc 0 1 dagDisc
      = 1000 := by
    show (0 : ℚ) + 1000 = 1000
    norm_num
  have hsc2 : score_heuristic 1 cdistDisc [0]
      (obtain_extended_set_v2 dagDisc [dagDisc.bfsSucc 0])
      ((⟨[0, 1, 2, 3], [0, 1, 2, 3]⟩ : NLayout).swap 2 3) dc 2 3 dagDisc
      = 1000 := by
    show (0 : ℚ) + 1000 = 1000
    norm_num
  rw [router_iter]
  dsimp only
  rw [if_neg (by decide : ¬ ([0] : List Nat) = [])]
  rw [show execute_gate_scan adjDisc ⟨[0, 1, 2, 3], [0, 1, 2, 3]⟩ dagDisc [0]
    = [] from by decide]
  rw [if_neg (by simp : ¬ (([] : List Nat) ≠ []))]
  rw [show obtain_swaps_v2 4 adjDisc [0]
    (⟨[0, 1, 2, 3], [0, 1, 2, 3]⟩ : NLayout) dagDisc
    = [(0, 1), (2, 3)] from by decide]
  dsimp only [List.map_cons, List.map_nil]
  rw [hsc1, hsc2]
  rw [show select_best_swap rngFirst [1000, 1000] [(0, 1), (2, 3)] = (0, 1)
    from by decide]
  rfl

/-- On the disconnected instance, one router iteration from `discLayout1`
swaps (0, 1) again and returns to the identity layout. -/
theorem disc_iter_from_swapped (ap : List Nat) (dc : List ℚ) (st : Nat) :
    router_iter dagDisc 4 adjDisc cdistDisc 1 rngFirst
      ⟨[0], discLayout1, ap, dc, st⟩ =
      some ⟨[0], ⟨[0, 1, 2, 3], [0, 1, 2, 3]⟩, ap,
        (swap_decay_step st 0 1 dc 4).2, (swap_decay_step st 0 1 dc 4).1⟩ := by
  have hsc1 : score_heuristic 1 cdistDisc [0]
      (obtain_extended_set_v2 dagDisc [dagDisc.bfsSucc 0])
      (discLayout1.swap 0 1) dc 0 1 dagDisc = 1000 := by
    show (0 : ℚ) + 1000 = 1000
    norm_num
  have hsc2 : score_heuristic 1 cdistDisc [0]
      (obtain_extended_set_v2 dagDisc [dagDisc.bfsSucc 0])
      (discLayout1.swap 2 3) dc 2 3 dagDisc = 1000 := by
    show (0 : ℚ) + 1000 = 1000
    norm_num
  rw [router_iter]
  dsimp only
  rw [if_neg (by decide : ¬ ([0] : List Nat) = [])]
  rw [show execute_gate_scan adjDisc discLayout1 dagDisc [0] = [] from by decide]
  rw [if_neg (by simp : ¬ (([] : List Nat) ≠ []))]
  rw [show obtain_swaps_v2 4 adjDisc [0] discLayout1 dagDisc
    = [(0, 1), (2, 3)] from by decide]
  dsimp only [List.map_cons, List.map_nil]
  rw [hsc1, hsc2]
  rw [show select_best_swap rngFirst [1000, 1000] [(0, 1), (2, 3)] = (0, 1)
    from by decide]
  rw [show discLayout1.swap 0 1 = (⟨[0, 1, 2, 3], [0, 1, 2, 3]⟩ : NLayout)
    from by decide]

/-- On the disconnected instance, a run of any length from a state whose
front layer is the single gate and whose layout is one of the two reachable
layouts returns normally with the gate still in the front layer. -/
theorem disc_run_invariant (n : Nat) :
    ∀ s : RouterState, s.front = [0] →
      (s.layout = ⟨[0, 1, 2, 3], [0, 1, 2, 3]⟩ ∨ s.layout = discLayout1) →
      ∃ s' : RouterState,
        router_run dagDisc 4 adjDisc cdistDisc 1 rngFirst n s = some s' ∧
          s'.front = [0] := by
  induction n with
  | zero => intro s h1 _; exact ⟨s, rfl, h1⟩
  | succ n ih =>
    intro s h1 h3
    obtain ⟨f, l, ap, dc, st⟩ := s
    dsimp only at h1 h3
    subst h1
    rw [router_run]
    rcases h3 with h3 | h3
    · subst h3
      rw [disc_iter_from_id]
      exact ih _ rfl (Or.inr rfl)
    · subst h3
      rw [disc_iter_from_swapped]
      exact ih _ rfl (Or.inl rfl)

/-- C8 (amended): the router contains no disconnected-coupling detection.
On the concrete input whose one front-layer gate spans the two disconnected
components 0–1 and 2–3, every iteration selects a SWAP, no error is ever
reported to the caller, and the loop never terminates: after any number of
iterations the run is still in progress with the gate still in the front
layer. -/
theorem disc_router_never_fails (n : Nat) :
    ∃ s : RouterState, disc_run n = some s ∧ s.front ≠ [] := by
  obtain ⟨s, hs, hf⟩ := disc_run_invariant n discState0 rfl (Or.inl rfl)
  refine ⟨s, hs, ?_⟩
  rw [hf]
  exact List.cons_ne_nil 0 []

/-- Unfolding one successful iteration of the router run. -/
theorem router_run_succ_of_iter (dag : DAG) (numQubits : Nat)
    (adj cdist : Nat → Nat → ℚ) (h : Nat) (rng : List (Nat × Nat) → Nat × Nat)
    (n : Nat) (s s' : RouterState)
    (hit : router_iter dag numQubits adj cdist h rng s = some s') :
    router_run dag numQubits adj cdist h rng (n + 1) s =
      router_run dag numQubits adj cdist h rng n s' := by
  rw [router_run, hit]

/-- C8 counterexample: after five full router iterations on the
disconnected instance — beyond the spec's suggested bound of `N = 4`
non-improving iterations — the routine has reported no error and is still
running: the unroutable gate is still the whole front layer and the decay
vector has just been reset.  (By `disc_iter_from_id` and
`disc_iter_from_swapped` the two layouts keep alternating, so no later
iteration can fail either.) -/
theorem disc_router_no_failure_after_five :
    disc_run 5 = some ⟨[0], discLayout1, [], [1, 1, 1, 1], 5⟩ ∧
      ([0] : List Nat) ≠ [] := by
  have hd1 : swap_decay_step 0 0 1 [1, 1, 1, 1] 4 =
      (1, [1001/1000, 1001/1000, 1, 1]) := by
    norm_num [swap_decay_step, bump_decay, DECAY_RATE, DECAY_RESET_INTERVAL]
  have hd2 : swap_decay_step 1 0 1 [1001/1000, 1001/1000, 1, 1] 4 =
      (2, [501/500, 501/500, 1, 1]) := by
    norm_num [swap_decay_step, bump_decay, DECAY_RATE, DECAY_RESET_INTERVAL]
  have hd3 : swap_decay_step 2 0 1 [501/500, 501/500, 1, 1] 4 =
      (3, [1003/1000, 1003/1000, 1, 1]) := by
    norm_num [swap_decay_step, bump_decay, DECAY_RATE, DECAY_RESET_INTERVAL]
  have hd4 : swap_decay_step 3 0 1 [1003/1000, 1003/1000, 1, 1] 4 =
      (4, [251/250, 251/250, 1, 1]) := by
    norm_num [swap_decay_step, bump_decay, DECAY_RATE, DECAY_RESET_INTERVAL]
  have hd5 : swap_decay_step 4 0 1 [251/250, 251/250, 1, 1] 4 =
      (5, [1, 1, 1, 1]) := by
    norm_num [swap_decay_step, DECAY_RESET_INTERVAL]
    decide
  have h1 := disc_iter_from_id [] [1, 1, 1, 1] 0
  rw [hd1] at h1
  have h2 := disc_iter_from_swapped [] [1001/1000, 1001/1000, 1, 1] 1
  rw [hd2] at h2
  have h3 := disc_iter_from_id [] [501/500, 501/500, 1, 1] 2
  rw [hd3] at h3
  have h4 := disc_iter_from_swapped [] [1003/1000, 1003/1000, 1, 1] 3
  rw [hd4] at h4
  have h5 := disc_iter_from_id [] [251/250, 251/250, 1, 1] 4
  rw [hd5] at h5
  refine ⟨?_, List.cons_ne_nil 0 []⟩
  show router_run dagDisc 4 adjDisc cdistDisc 1 rngFirst 5
    ⟨[0], ⟨[0, 1, 2, 3], [0, 1, 2, 3]⟩, [], [1, 1, 1, 1], 0⟩ = _
  rw [router_run_succ_of_iter _ _ _ _ _ _ _ _ _ h1,
    router_run_succ_of_iter _ _ _ _ _ _ _ _ _ h2,
    router_run_succ_of_iter _ _ _ _ _ _ _ _ _ h3,
    router_run_succ_of_iter _ _ _ _ _ _ _ _ _ h4,
    router_run_succ_of_iter _ _ _ _ _ _ _ _ _ h5,
    router_run]
